import Mathlib

/-!
Verification of the ridesharing matching engine.

The repository contains two script variants that match drivers with riders
one-to-one through a binary integer program:

* `src/ridesharing_optimization.py` (the class `RidesharingOptimizer`):
  attempts to build a bipartite model over announcement ids, with a weighted
  objective (`use_weights=True`, maximize the sum of selected edge weights)
  or an unweighted one (`use_weights=False`, maximize the number of
  matches), and at-most-one constraints per driver id and per rider id;
  weights come from `calculate_weights`; `calculate_metrics` derives the
  matching rate and the Additional-Kilometers-Saved figure.  Note that
  `create_pairs` drops the `Announcement_x`/`Announcement_y` columns, while
  both branches of `build_model` begin by reading them, so `build_model`
  raises `KeyError` on every input (embedded as such); the weighted and
  unweighted models analysed below are the ones `build_model` attempts to
  build.
* `ridesharing_optimization.py` (module-level script): builds an index-based
  model minimizing the summed Manhattan detour, reports
  `len(matches)/num_riders*100` as matching rate and
  `len(matches)*mean(rider distance)*0.3` as distance saved.

Participants are embedded as records of announcement id, origin/destination
coordinates and trip length, with real quantities modelled by `Rat`.  The
geodesic metric of the source is a pluggable parameter `dist`; selections of
the binary variables are embedded as sublists of the variable list.  The
external ILP solver is characterised by its contract (it returns an
objective-optimal feasible point); the deterministic tie-breaking solver the
spec prescribes is modelled separately from the spec's words.
-/

/-- A geographic point: latitude and longitude (degrees). -/
structure Point where
  lat : Rat
  lon : Rat
deriving DecidableEq

/-- One participant row: announcement id, origin, destination and the
`Distance_Car-Peak` trip length. -/
structure Participant where
  ann : Nat
  origin : Point
  dest : Point
  tripLength : Rat
deriving DecidableEq

instance : Inhabited Participant := ⟨⟨0, ⟨0, 0⟩, ⟨0, 0⟩, 0⟩⟩

/-- Python runtime errors the embedded code can raise. -/
inductive PyError where
  | zeroDivision
  | indexError
  | keyError
deriving DecidableEq

/-- The three weighting strategies of `RidesharingOptimizer.calculate_weights`. -/
inductive WeightMethod where
  | distance_savings
  | distance_proximity
  | adjusted_proximity
deriving DecidableEq

/-- The `with_match_length` three-leg route of `calculate_weights`:
driver origin → rider origin → rider destination → driver destination,
under the run's distance metric `dist`. -/
def with_match_length (dist : Point → Point → Rat) (driver rider : Participant) : Rat :=
  dist driver.origin rider.origin + dist rider.origin rider.dest +
    dist rider.dest driver.dest

/-- The body of `RidesharingOptimizer.calculate_weights` for one
(driver, rider) pair.  Python raises `ZeroDivisionError` on a zero
denominator (the guards follow the source's evaluation order), so the
result is `Except`. -/
def calc_weight (method : WeightMethod) (dist : Point → Point → Rat)
    (driver rider : Participant) : Except PyError Rat :=
  match method with
  | .distance_savings =>
      let no_match_length := driver.tripLength + rider.tripLength
      .ok (no_match_length - with_match_length dist driver rider)
  | .distance_proximity =>
      if rider.tripLength = 0 then .error .zeroDivision
      else if driver.tripLength = 0 then .error .zeroDivision
      else .ok (min (driver.tripLength / rider.tripLength)
                    (rider.tripLength / driver.tripLength))
  | .adjusted_proximity =>
      if with_match_length dist driver rider = 0 then .error .zeroDivision
      else if rider.tripLength = 0 then .error .zeroDivision
      else if driver.tripLength = 0 then .error .zeroDivision
      else .ok ((driver.tripLength / with_match_length dist driver rider) *
                min (driver.tripLength / rider.tripLength)
                    (rider.tripLength / driver.tripLength))

/-- The `distance_savings` formula as the spec words it:
`(driver.trip_length + rider.trip_length) − (dist(driver.origin, rider.origin)
+ dist(rider.origin, rider.destination) + dist(rider.destination,
driver.destination))`. -/
def spec_distance_savings (dist : Point → Point → Rat)
    (driver rider : Participant) : Rat :=
  (driver.tripLength + rider.tripLength) -
    (dist driver.origin rider.origin + dist rider.origin rider.dest +
      dist rider.dest driver.dest)

/-- A sample concrete metric for instantiating theorems: the Manhattan
distance between two points. -/
def sampleDist (p q : Point) : Rat :=
  |p.lat - q.lat| + |p.lon - q.lon|

/-- Metrics returned by `RidesharingOptimizer.calculate_metrics`. -/
structure Metrics where
  matched : Nat
  match_rate : Rat
  aks : Rat
deriving DecidableEq

/-- One iteration of the AKS loop of `calculate_metrics`: look the pair's
driver and rider up by announcement id (an out-of-range `.iloc[0]` would be
an `IndexError`) and compute `no_match_length - with_match_length`. -/
def pair_saving (dist : Point → Point → Rat) (drivers riders : List Participant)
    (dr : Nat × Nat) : Except PyError Rat :=
  match drivers.find? (fun p => p.ann == dr.1), riders.find? (fun p => p.ann == dr.2) with
  | some dp, some rp =>
      .ok ((dp.tripLength + rp.tripLength) - with_match_length dist dp rp)
  | _, _ => .error .indexError

/-- The `k_total` accumulation of `calculate_metrics`: per-pair savings summed
over the selected pairs, propagating the first lookup error. -/
def sum_savings (dist : Point → Point → Rat) (drivers riders : List Participant) :
    List (Nat × Nat) → Except PyError Rat
  | [] => .ok 0
  | dr :: rest =>
      match pair_saving dist drivers riders dr, sum_savings dist drivers riders rest with
      | .ok s, .ok k => .ok (s + k)
      | .error e, _ => .error e
      | .ok _, .error e => .error e

/-- The unique announcement ids of the driver frame
(`driverdf['Announcement'].unique()`). -/
def driverIds (drivers : List Participant) : List Nat :=
  (drivers.map (fun p => p.ann)).dedup

/-- The unique announcement ids of the rider frame
(`riderdf['Announcement'].unique()`). -/
def riderIds (riders : List Participant) : List Nat :=
  (riders.map (fun p => p.ann)).dedup

/-- The `calculate_metrics` method of `RidesharingOptimizer`.  `edges` is the
key list of the decision-variable dict `self.x` (as (driver id, rider id)
pairs), `sel` the selected keys (`x > 0.5`).  `list(self.x.keys())[0]` raises
`IndexError` on an empty dict; `matched * 2 / (len(drivers) + len(riders))`
raises `ZeroDivisionError` when both frames are empty; the AKS is the
average per-pair saving, or `0` when nothing matched. -/
def calculate_metrics (dist : Point → Point → Rat) (drivers riders : List Participant)
    (edges sel : List (Nat × Nat)) : Except PyError Metrics :=
  if edges.isEmpty then .error .indexError
  else if (driverIds drivers).length + (riderIds riders).length = 0 then
    .error .zeroDivision
  else
    match sum_savings dist drivers riders sel with
    | .error e => .error e
    | .ok k_total =>
        .ok ⟨sel.length,
             (sel.length : Rat) * 2 /
               (((driverIds drivers).length : Rat) + ((riderIds riders).length : Rat)),
             if 0 < sel.length then k_total / (sel.length : Rat) else 0⟩

/-- The matching rate of the module-level script:
`(len(matches) / num_riders) * 100`, a `ZeroDivisionError` when there are no
riders. -/
def matching_rate_script (numMatches num_riders : Nat) : Except PyError Rat :=
  if num_riders = 0 then .error .zeroDivision
  else .ok ((numMatches : Rat) / (num_riders : Rat) * 100)

/-- The `distance_saved` figure of the module-level script:
`len(matches) * avg_distance_per_rider * ESTIMATED_SAVINGS_RATE` with
`ESTIMATED_SAVINGS_RATE = 0.3`, printed as `0` when nothing matched. -/
def distance_saved_script (numMatches : Nat) (riderTripLengths : List Rat) : Rat :=
  if 0 < numMatches then
    (numMatches : Rat) * (riderTripLengths.sum / (riderTripLengths.length : Rat)) * (3 / 10)
  else 0

/-- A decision variable of the weighted model (`use_weights=True`): the
`build_model` triples `(Announcement_x, Announcement_y, weight)` from
`possible_matches`. -/
structure WEdge where
  d : Nat
  r : Nat
  w : Rat
deriving DecidableEq

/-- The Cartesian product of the driver and rider frames built by
`create_pairs` (`pd.merge` on a constant key), in row-major order. -/
def buildPairs (drivers riders : List Participant) : List (Participant × Participant) :=
  drivers.flatMap (fun d => riders.map (fun r => (d, r)))

/-- One row of `processdf` as `create_pairs` leaves it: the merged driver
(suffix `_x`) and rider (suffix `_y`) attributes with the string-valued
`Combined_Announcement` in place of the `Announcement_x` and
`Announcement_y` columns, which the method drops after deriving it.  In the
weighted pipeline `calculate_weights` later adds a numeric `weight` column;
it is irrelevant below because `build_model` fails on the id columns before
reading it. -/
structure PairRow where
  combined : String
  origin_x : Point
  dest_x : Point
  tripLength_x : Rat
  origin_y : Point
  dest_y : Point
  tripLength_y : Rat
deriving DecidableEq

/-- The `create_pairs` method: Cartesian product of the driver and rider
frames via a constant merge key, derivation of
`Combined_Announcement = str(Announcement_x) + str(Announcement_y)`, then
the drop of the `Announcement_x` and `Announcement_y` columns (with
`Combined_Announcement` moved to the front). -/
def create_pairs (drivers riders : List Participant) : List PairRow :=
  (buildPairs drivers riders).map (fun p =>
    ⟨toString p.1.ann ++ toString p.2.ann, p.1.origin, p.1.dest, p.1.tripLength,
      p.2.origin, p.2.dest, p.2.tripLength⟩)

/-- The `build_model` method of `RidesharingOptimizer`, which would return
the constructed variable index set.  Both branches begin by reading
`self.processdf['Announcement_x']` and `self.processdf['Announcement_y']`
(weighted branch and unweighted branch alike); a pandas column selection
raises `KeyError` for a missing label, and a `PairRow` frame carries no such
columns — `create_pairs` dropped both, keeping only `Combined_Announcement` —
so the very first lookup raises `KeyError` on every input, in either
objective mode, before any decision variable or constraint is created. -/
def build_model (_use_weights : Bool) (_processdf : List PairRow) :
    Except PyError (List WEdge) :=
  .error .keyError

/-- The variable index set the weighted `build_model` ATTEMPTS to construct:
`set(zip(processdf['Announcement_x'], processdf['Announcement_y'],
processdf['weight']))` as it would read had `create_pairs` retained the id
columns (the merge pairs each driver row with each rider row, so the triples
are the product's (driver id, rider id, weight); `w` stands for the weight
column and `dedup` for the Python `set`).  The actual lookup raises
`KeyError` — see `build_model` — so this is the intended model, used for the
invariant and optimality analysis, not a value the code ever produces. -/
def possible_matchesW (w : Participant → Participant → Rat)
    (drivers riders : List Participant) : List WEdge :=
  ((buildPairs drivers riders).map (fun p => ⟨p.1.ann, p.2.ann, w p.1 p.2⟩)).dedup

/-- The variable index set the unweighted `build_model` ATTEMPTS to
construct: `set(zip(processdf['Announcement_x'],
processdf['Announcement_y']))` as it would read had `create_pairs` retained
the id columns.  The actual lookup raises `KeyError` — see `build_model` —
so this too is the intended model only. -/
def possible_matchesU (drivers riders : List Participant) : List (Nat × Nat) :=
  ((buildPairs drivers riders).map (fun p => (p.1.ann, p.2.ann))).dedup

/-- The weighted objective `sum(x[d, r, w] * w for d, r, w in
possible_matches)` evaluated at the selection `sel`. -/
def objValW (sel : List WEdge) : Rat :=
  (sel.map WEdge.w).sum

/-- The unweighted objective `self.x.sum()` evaluated at the selection. -/
def objValU (sel : List (Nat × Nat)) : Nat :=
  sel.length

/-- The weighted model's constraints: for each driver id
`sum(x[d, r, w] for dm, r, w in possible_matches if dm == d) <= 1`, and
symmetrically for each rider id.  The sum counts the variables of the index
set that the selection sets to 1. -/
@[reducible] def consW (dIds rIds : List Nat) (edges sel : List WEdge) : Prop :=
  (∀ d ∈ dIds, ((edges.filter (fun e => e.d == d)).countP (fun e => decide (e ∈ sel))) ≤ 1) ∧
  (∀ r ∈ rIds, ((edges.filter (fun e => e.r == r)).countP (fun e => decide (e ∈ sel))) ≤ 1)

/-- A feasible point of the weighted model: a subset of the variable index
set satisfying both constraint families. -/
@[reducible] def feasibleW (dIds rIds : List Nat) (edges sel : List WEdge) : Prop :=
  sel.Sublist edges ∧ consW dIds rIds edges sel

/-- An optimal point of the weighted model (`GRB.MAXIMIZE`): feasible, and of
objective value at least that of every feasible point. -/
def isOptimalW (dIds rIds : List Nat) (edges sel : List WEdge) : Prop :=
  feasibleW dIds rIds edges sel ∧
    ∀ sel', feasibleW dIds rIds edges sel' → objValW sel' ≤ objValW sel

/-- The unweighted model's constraints: for each driver id
`sum(x[d, r] for r in riders if (d, r) in x) <= 1`, and symmetrically for
each rider id. -/
@[reducible] def consU (dIds rIds : List Nat) (edges sel : List (Nat × Nat)) : Prop :=
  (∀ d ∈ dIds,
    ((rIds.filter (fun r => decide ((d, r) ∈ edges))).countP (fun r => decide ((d, r) ∈ sel))) ≤ 1) ∧
  (∀ r ∈ rIds,
    ((dIds.filter (fun d => decide ((d, r) ∈ edges))).countP (fun d => decide ((d, r) ∈ sel))) ≤ 1)

/-- A feasible point of the unweighted model. -/
@[reducible] def feasibleU (dIds rIds : List Nat) (edges sel : List (Nat × Nat)) : Prop :=
  sel.Sublist edges ∧ consU dIds rIds edges sel

/-- An optimal point of the unweighted model (`GRB.MAXIMIZE` on `x.sum()`). -/
def isOptimalU (dIds rIds : List Nat) (edges sel : List (Nat × Nat)) : Prop :=
  feasibleU dIds rIds edges sel ∧
    ∀ sel', feasibleU dIds rIds edges sel' → objValU sel' ≤ objValU sel

/-- Whether a selection is a one-to-one pairing: no key of `f` (driver side)
and no key of `g` (rider side) occurs twice. -/
def validSelB {α : Type} (f g : α → Nat) : List α → Bool
  | [] => true
  | e :: rest => (rest.all (fun x => f e != f x && g e != g x)) && validSelB f g rest

/-- Every one-to-one pairing selectable from the weighted variable set: the
exhaustive enumeration the brute-force check runs over (participants may
stay unmatched, so all sub-selections are listed). -/
def candidatesW (edges : List WEdge) : List (List WEdge) :=
  edges.sublists.filter (validSelB WEdge.d WEdge.r)

/-- The brute-force optimum of the weighted objective over all one-to-one
pairings (the empty pairing contributes 0). -/
def bruteForceMaxW (edges : List WEdge) : Rat :=
  ((candidatesW edges).map objValW).foldl max 0

/-- Every one-to-one pairing selectable from the unweighted variable set. -/
def candidatesU (edges : List (Nat × Nat)) : List (List (Nat × Nat)) :=
  edges.sublists.filter (validSelB Prod.fst Prod.snd)

/-- The maximum matching size found by exhaustive search. -/
def maxMatchingSize (edges : List (Nat × Nat)) : Nat :=
  ((candidatesU edges).map objValU).foldl max 0

/-- The `calculate_distance` function of the module-level script: the sum of
Manhattan distances between origins and destinations of rider `i` and
driver `j`. -/
def calculate_distance (rider driver : Participant) : Rat :=
  |rider.origin.lat - driver.origin.lat| + |rider.origin.lon - driver.origin.lon| +
    |rider.dest.lat - driver.dest.lat| + |rider.dest.lon - driver.dest.lon|

/-- The module-level script's variable grid: `x[i, j]` for every
`i in range(num_riders)`, `j in range(num_drivers)`. -/
def scriptPairs (numRiders numDrivers : Nat) : List (Nat × Nat) :=
  (List.range numRiders).flatMap (fun i => (List.range numDrivers).map (fun j => (i, j)))

/-- The module-level script's objective
`quicksum(x[i, j] * calculate_distance(i, j))` (to be minimized) at a
selection of index pairs. -/
def scriptObj (riders drivers : List Participant) (sel : List (Nat × Nat)) : Rat :=
  (sel.map (fun ij => calculate_distance (riders.getD ij.1 default) (drivers.getD ij.2 default))).sum

/-- The module-level script's constraints: for each rider index
`quicksum(x[i, j] for j in range(num_drivers)) <= 1` and for each driver
index `quicksum(x[i, j] for i in range(num_riders)) <= 1`. -/
@[reducible] def consScript (numRiders numDrivers : Nat) (sel : List (Nat × Nat)) : Prop :=
  (∀ i ∈ List.range numRiders,
    ((List.range numDrivers).countP (fun j => decide ((i, j) ∈ sel))) ≤ 1) ∧
  (∀ j ∈ List.range numDrivers,
    ((List.range numRiders).countP (fun i => decide ((i, j) ∈ sel))) ≤ 1)

/-- A feasible point of the module-level script's model: a subset of the
variable grid satisfying both constraint families. -/
@[reducible] def feasibleScript (numRiders numDrivers : Nat) (sel : List (Nat × Nat)) : Prop :=
  sel.Sublist (scriptPairs numRiders numDrivers) ∧ consScript numRiders numDrivers sel

/-- The `(driver_id, rider_id)` pair sequence of a weighted-model selection. -/
def pairsOfW (sel : List WEdge) : List (Nat × Nat) :=
  sel.map (fun e => (e.d, e.r))

/-- Strict lexicographic comparison of two `(driver_id, rider_id)` pairs. -/
def pairLtB (p q : Nat × Nat) : Bool :=
  p.1 < q.1 || (p.1 == q.1 && p.2 < q.2)

/-- Lexicographic order on `(driver_id, rider_id)` sequences (a strict
prefix counts as smaller). -/
def lexLeB : List (Nat × Nat) → List (Nat × Nat) → Bool
  | [], _ => true
  | _ :: _, [] => false
  | p :: ps, q :: qs => pairLtB p q || (p == q && lexLeB ps qs)

/-- Modelled from the spec: the tie-break step of the Assignment Solver
(the source delegates solving to the external Gurobi ILP solver, which is
not part of the repository).  Of two candidate matchings it keeps the one
of larger objective value, and on equal objective values the one whose
`(driver_id, rider_id)` sequence is lexicographically smaller. -/
def betterW (a b : List WEdge) : List WEdge :=
  if objValW b < objValW a then a
  else if objValW a < objValW b then b
  else if lexLeB (pairsOfW a) (pairsOfW b) then a else b

/-- Modelled from the spec: the Assignment Solver for the weighted model
(the source delegates it to the external Gurobi ILP solver).  It scans every
one-to-one pairing of the graph and deterministically returns the optimal
one that is lexicographically smallest in `(driver_id, rider_id)` order. -/
def solveW (edges : List WEdge) : List WEdge :=
  match candidatesW edges with
  | [] => []
  | c :: cs => cs.foldl betterW c

theorem validSelB_iff {α : Type} (f g : α → Nat) (sel : List α) :
    validSelB f g sel = true ↔
      sel.Pairwise (fun a b => f a ≠ f b) ∧ sel.Pairwise (fun a b => g a ≠ g b) := by
  induction sel with
  | nil => simp [validSelB]
  | cons e rest ih =>
      simp only [validSelB, Bool.and_eq_true, List.all_eq_true, bne_iff_ne, ne_eq, ih,
        List.pairwise_cons]
      constructor
      · rintro ⟨h1, h2, h3⟩
        exact ⟨⟨fun x hx => (h1 x hx).1, h2⟩, fun x hx => (h1 x hx).2, h3⟩
      · rintro ⟨⟨h1, h2⟩, h3, h4⟩
        exact ⟨fun x hx => ⟨h1 x hx, h3 x hx⟩, h2, h4⟩

theorem count_filter_le_one_of_pairwise {α : Type} (f : α → Nat) {sel : List α}
    (h : sel.Pairwise (fun a b => f a ≠ f b)) (v : Nat) :
    (sel.filter (fun e => f e == v)).length ≤ 1 := by
  induction sel with
  | nil => simp
  | cons e rest ih =>
      rcases List.pairwise_cons.mp h with ⟨he, hrest⟩
      by_cases hv : f e = v
      · have hnil : rest.filter (fun x => f x == v) = [] := by
          rw [List.filter_eq_nil_iff]
          intro x hx hfx
          exact he x hx (by rw [hv]; exact (beq_iff_eq.mp hfx).symm ▸ rfl)
        simp [List.filter_cons, hv, hnil]
      · simpa [List.filter_cons, hv] using ih hrest

theorem pairwise_of_count_filter {α : Type} (f : α → Nat) {sel : List α} {ids : List Nat}
    (hmem : ∀ e ∈ sel, f e ∈ ids)
    (hcnt : ∀ v ∈ ids, (sel.filter (fun e => f e == v)).length ≤ 1) :
    sel.Pairwise (fun a b => f a ≠ f b) := by
  induction sel with
  | nil => exact List.Pairwise.nil
  | cons e rest ih =>
      refine List.pairwise_cons.mpr ⟨?_, ?_⟩
      · intro b hb hfb
        have h1 := hcnt (f e) (hmem e (by simp))
        have hbmem : b ∈ rest.filter (fun x => f x == f e) :=
          List.mem_filter.mpr ⟨hb, by simp [hfb]⟩
        have h2 : 0 < (rest.filter (fun x => f x == f e)).length :=
          List.length_pos.mpr (List.ne_nil_of_mem hbmem)
        have h3 : ((e :: rest).filter (fun x => f x == f e)).length
            = (rest.filter (fun x => f x == f e)).length + 1 := by
          simp [List.filter_cons]
        omega
      · refine ih (fun x hx => hmem x (by simp [hx])) ?_
        intro v hv
        have h1 := hcnt v hv
        have h2 : ((rest.filter (fun x => f x == v))).length
            ≤ ((e :: rest).filter (fun x => f x == v)).length := by
          by_cases hev : f e = v
          · simp [List.filter_cons, hev]
          · simp [List.filter_cons, hev]
        omega

theorem countP_filter_sel_eq {edges sel : List WEdge} (hsub : sel.Sublist edges)
    (hnd : edges.Nodup) (p : WEdge → Bool) :
    ((edges.filter p).countP (fun e => decide (e ∈ sel))) = (sel.filter p).length := by
  rw [List.countP_eq_length_filter]
  have h1 : ((edges.filter p).filter (fun e => decide (e ∈ sel))).Nodup :=
    List.Nodup.filter _ (List.Nodup.filter _ hnd)
  have h2 : (sel.filter p).Nodup := List.Nodup.filter _ (hsub.nodup hnd)
  refine List.Perm.length_eq ((List.perm_ext_iff_of_nodup h1 h2).mpr ?_)
  intro a
  simp only [List.mem_filter, decide_eq_true_eq]
  constructor
  · rintro ⟨⟨_, hpa⟩, hs⟩
    exact ⟨hs, hpa⟩
  · rintro ⟨hs, hpa⟩
    exact ⟨⟨hsub.subset hs, hpa⟩, hs⟩

theorem countU_fst_eq {edges sel : List (Nat × Nat)} {rIds : List Nat} (d : Nat)
    (hsub : sel.Sublist edges) (hnd : edges.Nodup) (hndR : rIds.Nodup)
    (hr : ∀ e ∈ edges, e.2 ∈ rIds) :
    ((rIds.filter (fun r => decide ((d, r) ∈ edges))).countP (fun r => decide ((d, r) ∈ sel)))
      = (sel.filter (fun e => e.1 == d)).length := by
  rw [List.countP_eq_length_filter]
  have h1 : ((rIds.filter (fun r => decide ((d, r) ∈ edges))).filter
      (fun r => decide ((d, r) ∈ sel))).Nodup :=
    List.Nodup.filter _ (List.Nodup.filter _ hndR)
  have h2 : ((sel.filter (fun e => e.1 == d)).map Prod.snd).Nodup := by
    refine List.Nodup.map_on ?_ (List.Nodup.filter _ (hsub.nodup hnd))
    intro x hx y hy hxy
    have hx1 : x.1 = d := by simpa using (List.mem_filter.mp hx).2
    have hy1 : y.1 = d := by simpa using (List.mem_filter.mp hy).2
    exact Prod.ext (hx1.trans hy1.symm) hxy
  have hperm : ((rIds.filter (fun r => decide ((d, r) ∈ edges))).filter
      (fun r => decide ((d, r) ∈ sel))).Perm ((sel.filter (fun e => e.1 == d)).map Prod.snd) := by
    refine (List.perm_ext_iff_of_nodup h1 h2).mpr ?_
    intro r
    simp only [List.mem_filter, List.mem_map, decide_eq_true_eq]
    constructor
    · rintro ⟨⟨_, _⟩, hs⟩
      exact ⟨(d, r), ⟨hs, by simp⟩, rfl⟩
    · rintro ⟨e, ⟨hes, he1b⟩, rfl⟩
      have he1 : e.1 = d := by simpa using he1b
      have hde : (d, e.2) ∈ sel := by
        have he : e = (d, e.2) := Prod.ext he1 rfl
        exact he ▸ hes
      exact ⟨⟨hr (d, e.2) (hsub.subset hde), hsub.subset hde⟩, hde⟩
  have hlen := hperm.length_eq
  simpa using hlen

theorem countU_snd_eq {edges sel : List (Nat × Nat)} {dIds : List Nat} (r : Nat)
    (hsub : sel.Sublist edges) (hnd : edges.Nodup) (hndD : dIds.Nodup)
    (hd : ∀ e ∈ edges, e.1 ∈ dIds) :
    ((dIds.filter (fun d => decide ((d, r) ∈ edges))).countP (fun d => decide ((d, r) ∈ sel)))
      = (sel.filter (fun e => e.2 == r)).length := by
  rw [List.countP_eq_length_filter]
  have h1 : ((dIds.filter (fun d => decide ((d, r) ∈ edges))).filter
      (fun d => decide ((d, r) ∈ sel))).Nodup :=
    List.Nodup.filter _ (List.Nodup.filter _ hndD)
  have h2 : ((sel.filter (fun e => e.2 == r)).map Prod.fst).Nodup := by
    refine List.Nodup.map_on ?_ (List.Nodup.filter _ (hsub.nodup hnd))
    intro x hx y hy hxy
    have hx2 : x.2 = r := by simpa using (List.mem_filter.mp hx).2
    have hy2 : y.2 = r := by simpa using (List.mem_filter.mp hy).2
    exact Prod.ext hxy (hx2.trans hy2.symm)
  have hperm : ((dIds.filter (fun d => decide ((d, r) ∈ edges))).filter
      (fun d => decide ((d, r) ∈ sel))).Perm ((sel.filter (fun e => e.2 == r)).map Prod.fst) := by
    refine (List.perm_ext_iff_of_nodup h1 h2).mpr ?_
    intro d
    simp only [List.mem_filter, List.mem_map, decide_eq_true_eq]
    constructor
    · rintro ⟨⟨_, _⟩, hs⟩
      exact ⟨(d, r), ⟨hs, by simp⟩, rfl⟩
    · rintro ⟨e, ⟨hes, he2b⟩, rfl⟩
      have he2 : e.2 = r := by simpa using he2b
      have hde : (e.1, r) ∈ sel := by
        have he : e = (e.1, r) := Prod.ext rfl he2
        exact he ▸ hes
      exact ⟨⟨hd (e.1, r) (hsub.subset hde), hsub.subset hde⟩, hde⟩
  have hlen := hperm.length_eq
  simpa using hlen

theorem consW_iff_pairwise {dIds rIds : List Nat} {edges sel : List WEdge}
    (hnd : edges.Nodup) (hsub : sel.Sublist edges)
    (hd : ∀ e ∈ edges, e.d ∈ dIds) (hr : ∀ e ∈ edges, e.r ∈ rIds) :
    consW dIds rIds edges sel ↔
      sel.Pairwise (fun a b => a.d ≠ b.d) ∧ sel.Pairwise (fun a b => a.r ≠ b.r) := by
  unfold consW
  constructor
  · rintro ⟨h1, h2⟩
    constructor
    · refine pairwise_of_count_filter WEdge.d (fun e he => hd e (hsub.subset he)) ?_
      intro v hv
      rw [← countP_filter_sel_eq hsub hnd]
      exact h1 v hv
    · refine pairwise_of_count_filter WEdge.r (fun e he => hr e (hsub.subset he)) ?_
      intro v hv
      rw [← countP_filter_sel_eq hsub hnd]
      exact h2 v hv
  · rintro ⟨h1, h2⟩
    constructor
    · intro v _
      rw [countP_filter_sel_eq hsub hnd]
      exact count_filter_le_one_of_pairwise WEdge.d h1 v
    · intro v _
      rw [countP_filter_sel_eq hsub hnd]
      exact count_filter_le_one_of_pairwise WEdge.r h2 v

theorem consU_iff_pairwise {dIds rIds : List Nat} {edges sel : List (Nat × Nat)}
    (hnd : edges.Nodup) (hndD : dIds.Nodup) (hndR : rIds.Nodup) (hsub : sel.Sublist edges)
    (hd : ∀ e ∈ edges, e.1 ∈ dIds) (hr : ∀ e ∈ edges, e.2 ∈ rIds) :
    consU dIds rIds edges sel ↔
      sel.Pairwise (fun a b => a.1 ≠ b.1) ∧ sel.Pairwise (fun a b => a.2 ≠ b.2) := by
  unfold consU
  constructor
  · rintro ⟨h1, h2⟩
    constructor
    · refine pairwise_of_count_filter Prod.fst (fun e he => hd e (hsub.subset he)) ?_
      intro v hv
      rw [← countU_fst_eq v hsub hnd hndR hr]
      exact h1 v hv
    · refine pairwise_of_count_filter Prod.snd (fun e he => hr e (hsub.subset he)) ?_
      intro v hv
      rw [← countU_snd_eq v hsub hnd hndD hd]
      exact h2 v hv
  · rintro ⟨h1, h2⟩
    constructor
    · intro v _
      rw [countU_fst_eq v hsub hnd hndR hr]
      exact count_filter_le_one_of_pairwise Prod.fst h1 v
    · intro v _
      rw [countU_snd_eq v hsub hnd hndD hd]
      exact count_filter_le_one_of_pairwise Prod.snd h2 v

theorem le_foldl_max {β : Type} [LinearOrder β] (l : List β) (a : β) :
    a ≤ l.foldl max a := by
  induction l generalizing a with
  | nil => exact le_refl a
  | cons x xs ih => exact le_trans (le_max_left a x) (ih (max a x))

theorem foldl_max_of_mem {β : Type} [LinearOrder β] {x : β} {l : List β} (h : x ∈ l)
    (a : β) : x ≤ l.foldl max a := by
  induction l generalizing a with
  | nil => cases h
  | cons y ys ih =>
      rcases List.mem_cons.mp h with rfl | hmem
      · exact le_trans (le_max_right a x) (le_foldl_max ys (max a x))
      · exact ih hmem (max a y)

theorem foldl_max_le {β : Type} [LinearOrder β] {l : List β} {b : β} (a : β)
    (ha : a ≤ b) (h : ∀ x ∈ l, x ≤ b) : l.foldl max a ≤ b := by
  induction l generalizing a with
  | nil => exact ha
  | cons y ys ih =>
      exact ih (max a y) (max_le ha (h y (by simp))) (fun x hx => h x (by simp [hx]))

theorem mem_possible_matchesW {w : Participant → Participant → Rat}
    {drivers riders : List Participant} {e : WEdge}
    (he : e ∈ possible_matchesW w drivers riders) :
    e.d ∈ driverIds drivers ∧ e.r ∈ riderIds riders := by
  rw [possible_matchesW, List.mem_dedup, List.mem_map] at he
  obtain ⟨p, hp, rfl⟩ := he
  rw [buildPairs, List.mem_flatMap] at hp
  obtain ⟨dp, hdp, hp⟩ := hp
  rw [List.mem_map] at hp
  obtain ⟨rp, hrp, rfl⟩ := hp
  constructor
  · rw [driverIds, List.mem_dedup, List.mem_map]
    exact ⟨dp, hdp, rfl⟩
  · rw [riderIds, List.mem_dedup, List.mem_map]
    exact ⟨rp, hrp, rfl⟩

theorem mem_possible_matchesU {drivers riders : List Participant} {e : Nat × Nat}
    (he : e ∈ possible_matchesU drivers riders) :
    e.1 ∈ driverIds drivers ∧ e.2 ∈ riderIds riders := by
  rw [possible_matchesU, List.mem_dedup, List.mem_map] at he
  obtain ⟨p, hp, rfl⟩ := he
  rw [buildPairs, List.mem_flatMap] at hp
  obtain ⟨dp, hdp, hp⟩ := hp
  rw [List.mem_map] at hp
  obtain ⟨rp, hrp, rfl⟩ := hp
  constructor
  · rw [driverIds, List.mem_dedup, List.mem_map]
    exact ⟨dp, hdp, rfl⟩
  · rw [riderIds, List.mem_dedup, List.mem_map]
    exact ⟨rp, hrp, rfl⟩

theorem feasibleW_empty (dIds rIds : List Nat) (edges : List WEdge) :
    feasibleW dIds rIds edges [] := by
  refine ⟨List.nil_sublist _, ?_, ?_⟩ <;> intro v _ <;> simp

theorem feasibleW_of_candidate {dIds rIds : List Nat} {edges c : List WEdge}
    (hnd : edges.Nodup) (hd : ∀ e ∈ edges, e.d ∈ dIds) (hr : ∀ e ∈ edges, e.r ∈ rIds)
    (hc : c ∈ candidatesW edges) : feasibleW dIds rIds edges c := by
  obtain ⟨hcs, hcv⟩ := List.mem_filter.mp hc
  have hcsub : c.Sublist edges := List.mem_sublists.mp hcs
  exact ⟨hcsub, (consW_iff_pairwise hnd hcsub hd hr).mpr ((validSelB_iff _ _ _).mp hcv)⟩

theorem optimalW_eq_bruteforce {dIds rIds : List Nat} {edges sel : List WEdge}
    (hnd : edges.Nodup) (hd : ∀ e ∈ edges, e.d ∈ dIds) (hr : ∀ e ∈ edges, e.r ∈ rIds)
    (hopt : isOptimalW dIds rIds edges sel) :
    objValW sel = bruteForceMaxW edges := by
  obtain ⟨⟨hsub, hcons⟩, hmax⟩ := hopt
  have hvalid : validSelB WEdge.d WEdge.r sel = true :=
    (validSelB_iff _ _ _).mpr ((consW_iff_pairwise hnd hsub hd hr).mp hcons)
  have hmem : objValW sel ∈ (candidatesW edges).map objValW :=
    List.mem_map_of_mem _ (List.mem_filter.mpr ⟨List.mem_sublists.mpr hsub, hvalid⟩)
  have hle : objValW sel ≤ bruteForceMaxW edges := foldl_max_of_mem hmem 0
  have hge : bruteForceMaxW edges ≤ objValW sel := by
    refine foldl_max_le 0 ?_ ?_
    · simpa [objValW] using hmax [] (feasibleW_empty dIds rIds edges)
    · intro x hx
      obtain ⟨c, hc, rfl⟩ := List.mem_map.mp hx
      exact hmax c (feasibleW_of_candidate hnd hd hr hc)
  exact le_antisymm hle hge

theorem feasibleU_empty (dIds rIds : List Nat) (edges : List (Nat × Nat)) :
    feasibleU dIds rIds edges [] := by
  refine ⟨List.nil_sublist _, ?_, ?_⟩ <;> intro v _ <;> simp

theorem feasibleU_of_candidate {dIds rIds : List Nat} {edges c : List (Nat × Nat)}
    (hnd : edges.Nodup) (hndD : dIds.Nodup) (hndR : rIds.Nodup)
    (hd : ∀ e ∈ edges, e.1 ∈ dIds) (hr : ∀ e ∈ edges, e.2 ∈ rIds)
    (hc : c ∈ candidatesU edges) : feasibleU dIds rIds edges c := by
  obtain ⟨hcs, hcv⟩ := List.mem_filter.mp hc
  have hcsub : c.Sublist edges := List.mem_sublists.mp hcs
  exact ⟨hcsub,
    (consU_iff_pairwise hnd hndD hndR hcsub hd hr).mpr ((validSelB_iff _ _ _).mp hcv)⟩

theorem optimalU_eq_maxsize {dIds rIds : List Nat} {edges sel : List (Nat × Nat)}
    (hnd : edges.Nodup) (hndD : dIds.Nodup) (hndR : rIds.Nodup)
    (hd : ∀ e ∈ edges, e.1 ∈ dIds) (hr : ∀ e ∈ edges, e.2 ∈ rIds)
    (hopt : isOptimalU dIds rIds edges sel) :
    objValU sel = maxMatchingSize edges := by
  obtain ⟨⟨hsub, hcons⟩, hmax⟩ := hopt
  have hvalid : validSelB Prod.fst Prod.snd sel = true :=
    (validSelB_iff _ _ _).mpr ((consU_iff_pairwise hnd hndD hndR hsub hd hr).mp hcons)
  have hmem : objValU sel ∈ (candidatesU edges).map objValU :=
    List.mem_map_of_mem _ (List.mem_filter.mpr ⟨List.mem_sublists.mpr hsub, hvalid⟩)
  have hle : objValU sel ≤ maxMatchingSize edges := foldl_max_of_mem hmem 0
  have hge : maxMatchingSize edges ≤ objValU sel := by
    refine foldl_max_le 0 (Nat.zero_le _) ?_
    intro x hx
    obtain ⟨c, hc, rfl⟩ := List.mem_map.mp hx
    exact hmax c (feasibleU_of_candidate hnd hndD hndR hd hr hc)
  exact le_antisymm hle hge

theorem pairLtB_iff (p q : Nat × Nat) :
    pairLtB p q = true ↔ p.1 < q.1 ∨ (p.1 = q.1 ∧ p.2 < q.2) := by
  simp [pairLtB]

theorem lexLeB_refl (l : List (Nat × Nat)) : lexLeB l l = true := by
  induction l with
  | nil => rfl
  | cons p ps ih => simp [lexLeB, ih]

theorem lexLeB_total (a b : List (Nat × Nat)) :
    lexLeB a b = true ∨ lexLeB b a = true := by
  induction a generalizing b with
  | nil => exact Or.inl rfl
  | cons p ps ih =>
      cases b with
      | nil => exact Or.inr rfl
      | cons q qs =>
          rcases Nat.lt_trichotomy p.1 q.1 with h1 | h1 | h1
          · exact Or.inl (by simp [lexLeB, pairLtB_iff, h1])
          · rcases Nat.lt_trichotomy p.2 q.2 with h2 | h2 | h2
            · exact Or.inl (by simp [lexLeB, pairLtB_iff, h1, h2])
            · have hpq : p = q := Prod.ext h1 h2
              rcases ih qs with h | h
              · exact Or.inl (by simp [lexLeB, hpq, h])
              · exact Or.inr (by simp [lexLeB, hpq.symm, h])
            · exact Or.inr (by simp [lexLeB, pairLtB_iff, h1.symm, h2])
          · exact Or.inr (by simp [lexLeB, pairLtB_iff, h1])

theorem pairLtB_trans {p q s : Nat × Nat} (h1 : pairLtB p q = true)
    (h2 : pairLtB q s = true) : pairLtB p s = true := by
  rw [pairLtB_iff] at h1 h2 ⊢
  rcases h1 with h1 | ⟨h1a, h1b⟩ <;> rcases h2 with h2 | ⟨h2a, h2b⟩ <;>
    [exact Or.inl (h1.trans h2); exact Or.inl (h2a ▸ h1);
     exact Or.inl (h1a ▸ h2); exact Or.inr ⟨h1a.trans h2a, h1b.trans h2b⟩]

theorem lexLeB_trans {a b c : List (Nat × Nat)} (h1 : lexLeB a b = true)
    (h2 : lexLeB b c = true) : lexLeB a c = true := by
  induction a generalizing b c with
  | nil => rfl
  | cons p ps ih =>
      cases b with
      | nil => exact absurd h1 (by simp [lexLeB])
      | cons q qs =>
          cases c with
          | nil => exact absurd h2 (by simp [lexLeB])
          | cons s ss =>
              simp only [lexLeB, Bool.or_eq_true, Bool.and_eq_true, beq_iff_eq] at h1 h2 ⊢
              rcases h1 with h1 | ⟨rfl, h1⟩
              · rcases h2 with h2 | ⟨rfl, h2⟩
                · exact Or.inl (pairLtB_trans h1 h2)
                · exact Or.inl h1
              · rcases h2 with h2 | ⟨rfl, h2⟩
                · exact Or.inl h2
                · exact Or.inr ⟨rfl, ih h1 h2⟩

/-- Preference order the tie-breaking solver maximises: larger objective
first, lexicographically smaller pair sequence on ties. -/
def prefW (a b : List WEdge) : Prop :=
  objValW b < objValW a ∨
    (objValW a = objValW b ∧ lexLeB (pairsOfW a) (pairsOfW b) = true)

theorem prefW_refl (a : List WEdge) : prefW a a :=
  Or.inr ⟨rfl, lexLeB_refl _⟩

theorem prefW_trans {a b c : List WEdge} (h1 : prefW a b) (h2 : prefW b c) :
    prefW a c := by
  rcases h1 with h1 | ⟨h1a, h1b⟩ <;> rcases h2 with h2 | ⟨h2a, h2b⟩
  · exact Or.inl (h2.trans h1)
  · exact Or.inl (h2a ▸ h1)
  · exact Or.inl (h1a ▸ h2)
  · exact Or.inr ⟨h1a.trans h2a, lexLeB_trans h1b h2b⟩

theorem betterW_eq_or (a b : List WEdge) : betterW a b = a ∨ betterW a b = b := by
  unfold betterW
  split
  · exact Or.inl rfl
  · split
    · exact Or.inr rfl
    · split
      · exact Or.inl rfl
      · exact Or.inr rfl

theorem prefW_betterW_left (a b : List WEdge) : prefW (betterW a b) a := by
  unfold betterW
  split
  · exact prefW_refl a
  · split
    · exact Or.inl (by assumption)
    · rename_i hba hab
      have heq : objValW a = objValW b := le_antisymm (le_of_not_lt hba) (le_of_not_lt hab)
      split
      · exact prefW_refl a
      · rename_i hlex
        rcases lexLeB_total (pairsOfW a) (pairsOfW b) with h | h
        · exact absurd h hlex
        · exact Or.inr ⟨heq.symm, h⟩

theorem prefW_betterW_right (a b : List WEdge) : prefW (betterW a b) b := by
  unfold betterW
  split
  · exact Or.inl (by assumption)
  · split
    · exact prefW_refl b
    · rename_i hba hab
      have heq : objValW a = objValW b := le_antisymm (le_of_not_lt hba) (le_of_not_lt hab)
      split
      · exact Or.inr ⟨heq, by assumption⟩
      · exact prefW_refl b

theorem foldl_betterW_spec (cs : List (List WEdge)) (c : List WEdge) :
    (cs.foldl betterW c = c ∨ cs.foldl betterW c ∈ cs) ∧
      prefW (cs.foldl betterW c) c ∧ ∀ x ∈ cs, prefW (cs.foldl betterW c) x := by
  induction cs generalizing c with
  | nil => exact ⟨Or.inl rfl, prefW_refl c, by simp⟩
  | cons x xs ih =>
      obtain ⟨hmem, hpref, hall⟩ := ih (betterW c x)
      refine ⟨?_, ?_, ?_⟩
      · rcases hmem with h | h
        · rcases betterW_eq_or c x with hc | hx
          · exact Or.inl (h.trans hc)
          · exact Or.inr (by simp [h.trans hx])
        · exact Or.inr (by simp [h])
      · exact prefW_trans hpref (prefW_betterW_left c x)
      · intro y hy
        rcases List.mem_cons.mp hy with rfl | hmy
        · exact prefW_trans hpref (prefW_betterW_right c y)
        · exact hall y hmy

theorem nil_mem_candidatesW (edges : List WEdge) : [] ∈ candidatesW edges :=
  List.mem_filter.mpr ⟨List.mem_sublists.mpr (List.nil_sublist edges), rfl⟩

theorem solveW_spec (edges : List WEdge) :
    solveW edges ∈ candidatesW edges ∧ ∀ c ∈ candidatesW edges, prefW (solveW edges) c := by
  cases h : candidatesW edges with
  | nil => exact absurd (h ▸ nil_mem_candidatesW edges) (by simp)
  | cons c cs =>
      obtain ⟨hmem, hpref, hall⟩ := foldl_betterW_spec cs c
      have hs : solveW edges = cs.foldl betterW c := by rw [solveW, h]
      constructor
      · rw [hs]
        rcases hmem with h1 | h1
        · simp [h1]
        · simp [h1]
      · intro x hx
        rcases List.mem_cons.mp hx with rfl | hmx
        · rw [hs]
          exact hpref
        · rw [hs]
          exact hall x hmx


theorem mem_scriptPairs {numRiders numDrivers : Nat} {p : Nat × Nat} :
    p ∈ scriptPairs numRiders numDrivers ↔ p.1 < numRiders ∧ p.2 < numDrivers := by
  cases p with
  | mk i j =>
      constructor
      · intro h
        rw [scriptPairs, List.mem_flatMap] at h
        obtain ⟨a, ha, h⟩ := h
        rw [List.mem_map] at h
        obtain ⟨b, hb, hab⟩ := h
        obtain ⟨rfl, rfl⟩ : a = i ∧ b = j := by
          constructor <;> [exact congrArg Prod.fst hab; exact congrArg Prod.snd hab]
        exact ⟨List.mem_range.mp ha, List.mem_range.mp hb⟩
      · rintro ⟨hi, hj⟩
        rw [scriptPairs, List.mem_flatMap]
        exact ⟨i, List.mem_range.mpr hi, List.mem_map.mpr ⟨j, List.mem_range.mpr hj, rfl⟩⟩

theorem scriptPairs_nodup (numRiders numDrivers : Nat) :
    (scriptPairs numRiders numDrivers).Nodup := by
  have h : scriptPairs numRiders numDrivers
      = (List.range numRiders).product (List.range numDrivers) := rfl
  rw [h]
  exact (List.nodup_range numRiders).product (List.nodup_range numDrivers)

theorem countScript_fst_eq {sel : List (Nat × Nat)} {numRiders numDrivers : Nat} (i : Nat)
    (hsub : sel.Sublist (scriptPairs numRiders numDrivers)) :
    ((List.range numDrivers).countP (fun j => decide ((i, j) ∈ sel)))
      = (sel.filter (fun p => p.1 == i)).length := by
  rw [List.countP_eq_length_filter]
  have h1 : ((List.range numDrivers).filter (fun j => decide ((i, j) ∈ sel))).Nodup :=
    List.Nodup.filter _ (List.nodup_range numDrivers)
  have h2 : ((sel.filter (fun p => p.1 == i)).map Prod.snd).Nodup := by
    refine List.Nodup.map_on ?_ (List.Nodup.filter _ (hsub.nodup (scriptPairs_nodup _ _)))
    intro x hx y hy hxy
    have hx1 : x.1 = i := by simpa using (List.mem_filter.mp hx).2
    have hy1 : y.1 = i := by simpa using (List.mem_filter.mp hy).2
    exact Prod.ext (hx1.trans hy1.symm) hxy
  have hperm : ((List.range numDrivers).filter (fun j => decide ((i, j) ∈ sel))).Perm
      ((sel.filter (fun p => p.1 == i)).map Prod.snd) := by
    refine (List.perm_ext_iff_of_nodup h1 h2).mpr ?_
    intro j
    simp only [List.mem_filter, List.mem_map, List.mem_range, decide_eq_true_eq]
    constructor
    · rintro ⟨_, hs⟩
      exact ⟨(i, j), ⟨hs, by simp⟩, rfl⟩
    · rintro ⟨e, ⟨hes, he1b⟩, rfl⟩
      have he1 : e.1 = i := by simpa using he1b
      have hde : (i, e.2) ∈ sel := by
        have he : e = (i, e.2) := Prod.ext he1 rfl
        exact he ▸ hes
      exact ⟨(mem_scriptPairs.mp (hsub.subset hde)).2, hde⟩
  have hlen := hperm.length_eq
  simpa using hlen

theorem countScript_snd_eq {sel : List (Nat × Nat)} {numRiders numDrivers : Nat} (j : Nat)
    (hsub : sel.Sublist (scriptPairs numRiders numDrivers)) :
    ((List.range numRiders).countP (fun i => decide ((i, j) ∈ sel)))
      = (sel.filter (fun p => p.2 == j)).length := by
  rw [List.countP_eq_length_filter]
  have h1 : ((List.range numRiders).filter (fun i => decide ((i, j) ∈ sel))).Nodup :=
    List.Nodup.filter _ (List.nodup_range numRiders)
  have h2 : ((sel.filter (fun p => p.2 == j)).map Prod.fst).Nodup := by
    refine List.Nodup.map_on ?_ (List.Nodup.filter _ (hsub.nodup (scriptPairs_nodup _ _)))
    intro x hx y hy hxy
    have hx2 : x.2 = j := by simpa using (List.mem_filter.mp hx).2
    have hy2 : y.2 = j := by simpa using (List.mem_filter.mp hy).2
    exact Prod.ext hxy (hx2.trans hy2.symm)
  have hperm : ((List.range numRiders).filter (fun i => decide ((i, j) ∈ sel))).Perm
      ((sel.filter (fun p => p.2 == j)).map Prod.fst) := by
    refine (List.perm_ext_iff_of_nodup h1 h2).mpr ?_
    intro i
    simp only [List.mem_filter, List.mem_map, List.mem_range, decide_eq_true_eq]
    constructor
    · rintro ⟨_, hs⟩
      exact ⟨(i, j), ⟨hs, by simp⟩, rfl⟩
    · rintro ⟨e, ⟨hes, he2b⟩, rfl⟩
      have he2 : e.2 = j := by simpa using he2b
      have hde : (e.1, j) ∈ sel := by
        have he : e = (e.1, j) := Prod.ext rfl he2
        exact he ▸ hes
      exact ⟨(mem_scriptPairs.mp (hsub.subset hde)).1, hde⟩
  have hlen := hperm.length_eq
  simpa using hlen

theorem consScript_iff_pairwise {numRiders numDrivers : Nat} {sel : List (Nat × Nat)}
    (hsub : sel.Sublist (scriptPairs numRiders numDrivers)) :
    consScript numRiders numDrivers sel ↔
      sel.Pairwise (fun a b => a.1 ≠ b.1) ∧ sel.Pairwise (fun a b => a.2 ≠ b.2) := by
  unfold consScript
  constructor
  · rintro ⟨h1, h2⟩
    constructor
    · refine pairwise_of_count_filter Prod.fst
        (fun e he => List.mem_range.mpr (mem_scriptPairs.mp (hsub.subset he)).1) ?_
      intro v hv
      rw [← countScript_fst_eq v hsub]
      exact h1 v hv
    · refine pairwise_of_count_filter Prod.snd
        (fun e he => List.mem_range.mpr (mem_scriptPairs.mp (hsub.subset he)).2) ?_
      intro v hv
      rw [← countScript_snd_eq v hsub]
      exact h2 v hv
  · rintro ⟨h1, h2⟩
    constructor
    · intro v _
      rw [countScript_fst_eq v hsub]
      exact count_filter_le_one_of_pairwise Prod.fst h1 v
    · intro v _
      rw [countScript_snd_eq v hsub]
      exact count_filter_le_one_of_pairwise Prod.snd h2 v

/-- A sample driver row for instantiating theorems at a concrete input. -/
def sampleDriver : Participant := ⟨1, ⟨0, 0⟩, ⟨0, 0⟩, 0⟩

/-- A sample rider row for instantiating theorems at a concrete input. -/
def sampleRider : Participant := ⟨100, ⟨0, 0⟩, ⟨0, 0⟩, 0⟩

/-- Claim C1 is defeated by a crash: `create_pairs` drops the
`Announcement_x`/`Announcement_y` columns, so the weighted `build_model`
(`use_weights=True`) raises `KeyError` on every input and the solver never
returns a matching (first conjunct).  The claimed property does hold of the
model the method attempts to build: every objective-optimal point of that
model has objective value equal to the brute-force optimum over all
one-to-one pairings, participants legally unmatched at zero contribution
(second conjunct, with the claim's D, R ≤ 6 bounds). -/
theorem weighted_model_never_built :
    (∀ (drivers riders : List Participant),
      build_model true (create_pairs drivers riders) = .error .keyError) ∧
    (∀ (w : Participant → Participant → Rat) (drivers riders : List Participant)
        (sel : List WEdge),
      drivers.length ≤ 6 → riders.length ≤ 6 →
      isOptimalW (driverIds drivers) (riderIds riders)
          (possible_matchesW w drivers riders) sel →
        objValW sel = bruteForceMaxW (possible_matchesW w drivers riders)) := by
  refine ⟨fun _ _ => rfl, ?_⟩
  intro w drivers riders sel _ _ hopt
  exact optimalW_eq_bruteforce (List.nodup_dedup _)
    (fun _ he => (mem_possible_matchesW he).1)
    (fun _ he => (mem_possible_matchesW he).2) hopt

/-- Claim C2 is defeated by the same crash: the unweighted `build_model`
(`use_weights=False`) also begins by reading the dropped id columns and
raises `KeyError` on every input, so no matching is ever returned (first
conjunct).  The claimed property does hold of the model the method attempts
to build: every optimal point selects exactly the exhaustive-search maximum
matching size (second conjunct, with the claim's D, R ≤ 8 bounds). -/
theorem unweighted_model_never_built :
    (∀ (drivers riders : List Participant),
      build_model false (create_pairs drivers riders) = .error .keyError) ∧
    (∀ (drivers riders : List Participant) (sel : List (Nat × Nat)),
      drivers.length ≤ 8 → riders.length ≤ 8 →
      isOptimalU (driverIds drivers) (riderIds riders)
          (possible_matchesU drivers riders) sel →
        objValU sel = maxMatchingSize (possible_matchesU drivers riders)) := by
  refine ⟨fun _ _ => rfl, ?_⟩
  intro drivers riders sel _ _ hopt
  exact optimalU_eq_maxsize (List.nodup_dedup _) (List.nodup_dedup _) (List.nodup_dedup _)
    (fun _ he => (mem_possible_matchesU he).1)
    (fun _ he => (mem_possible_matchesU he).2) hopt

/-- Claim C3 against the code as it stands: the class `build_model` raises
`KeyError` in both objective modes before any decision variable exists, so
the class pipeline never returns a Matching for the invariant to apply to
(first conjunct).  Where a model is actually constructed or attempted, the
invariant holds: every feasible point of the module-level script's model —
the cited at-most-one constraints — uses each rider index and each driver
index at most once and draws only grid variables (second conjunct), and
every feasible point of the weighted and unweighted models the class method
attempts to build reuses no driver id and no rider id and contains only
candidate edges (third conjunct). -/
theorem matching_invariant_where_defined :
    (∀ (use_weights : Bool) (drivers riders : List Participant),
      build_model use_weights (create_pairs drivers riders) = .error .keyError) ∧
    (∀ (numRiders numDrivers : Nat) (sel : List (Nat × Nat)),
      feasibleScript numRiders numDrivers sel →
        sel.Pairwise (fun a b => a.1 ≠ b.1) ∧ sel.Pairwise (fun a b => a.2 ≠ b.2) ∧
        ∀ p ∈ sel, p ∈ scriptPairs numRiders numDrivers) ∧
    (∀ (w : Participant → Participant → Rat) (drivers riders : List Participant)
        (selW : List WEdge) (selU : List (Nat × Nat)),
      feasibleW (driverIds drivers) (riderIds riders)
          (possible_matchesW w drivers riders) selW →
      feasibleU (driverIds drivers) (riderIds riders)
          (possible_matchesU drivers riders) selU →
        (selW.Pairwise (fun a b => a.d ≠ b.d) ∧ selW.Pairwise (fun a b => a.r ≠ b.r) ∧
          ∀ e ∈ selW, e ∈ possible_matchesW w drivers riders) ∧
        (selU.Pairwise (fun a b => a.1 ≠ b.1) ∧ selU.Pairwise (fun a b => a.2 ≠ b.2) ∧
          ∀ e ∈ selU, e ∈ possible_matchesU drivers riders)) := by
  refine ⟨fun _ _ _ => rfl, ?_, ?_⟩
  · intro numRiders numDrivers sel hfeas
    have hP := (consScript_iff_pairwise hfeas.1).mp hfeas.2
    exact ⟨hP.1, hP.2, fun _ hp => hfeas.1.subset hp⟩
  · intro w drivers riders selW selU hW hU
    have hPW := (consW_iff_pairwise (List.nodup_dedup _) hW.1
      (fun _ he => (mem_possible_matchesW he).1)
      (fun _ he => (mem_possible_matchesW he).2)).mp hW.2
    have hPU := (consU_iff_pairwise (List.nodup_dedup _) (List.nodup_dedup _)
      (List.nodup_dedup _) hU.1
      (fun _ he => (mem_possible_matchesU he).1)
      (fun _ he => (mem_possible_matchesU he).2)).mp hU.2
    exact ⟨⟨hPW.1, hPW.2, fun _ he => hW.1.subset he⟩,
      ⟨hPU.1, hPU.2, fun _ he => hU.1.subset he⟩⟩

/-- Claim C5 (Assignment Solver modelled from the spec, the source delegates
solving to the external Gurobi ILP solver): the tie-breaking solver is a pure
function of its input — running it twice yields the identical matching — and
it returns a valid candidate matching that is objective-optimal and, among
equal-objective matchings, lexicographically smallest in
`(driver_id, rider_id)` order. -/
theorem solver_deterministic_lex_tiebreak (edges : List WEdge) :
    solveW edges = solveW edges ∧
    solveW edges ∈ candidatesW edges ∧
    (∀ c ∈ candidatesW edges, objValW c ≤ objValW (solveW edges)) ∧
    (∀ c ∈ candidatesW edges, objValW c = objValW (solveW edges) →
      lexLeB (pairsOfW (solveW edges)) (pairsOfW c) = true) := by
  obtain ⟨hmem, hall⟩ := solveW_spec edges
  refine ⟨rfl, hmem, ?_, ?_⟩
  · intro c hc
    rcases hall c hc with h | ⟨h, _⟩
    · exact le_of_lt h
    · exact le_of_eq h.symm
  · intro c hc heq
    rcases hall c hc with h | ⟨_, h⟩
    · exact absurd heq (ne_of_lt h)
    · exact h

/-- Claim C4 is violated by the code: with zero drivers the class pipeline's
variable dict is empty, so `calculate_metrics` raises `IndexError` at
`list(self.x.keys())[0]` instead of reporting the empty matching with
objective 0; the module script with zero riders raises `ZeroDivisionError`
computing `len(matches) / num_riders`. -/
theorem degenerate_input_raises :
    calculate_metrics sampleDist [] [sampleRider] (possible_matchesU [] [sampleRider]) []
        = .error .indexError ∧
      matching_rate_script 0 0 = .error .zeroDivision :=
  ⟨rfl, rfl⟩

/-- Claim C6: `distance_proximity` raises `ZeroDivisionError` whenever either
trip length is zero, and for strictly positive trip lengths returns
`min(driver.trip_length/rider.trip_length, rider.trip_length/driver.trip_length)`,
which lies in the interval (0, 1]. -/
theorem distance_proximity_behavior (dist : Point → Point → Rat)
    (driver rider : Participant) :
    ((driver.tripLength = 0 ∨ rider.tripLength = 0) →
      calc_weight .distance_proximity dist driver rider = .error .zeroDivision) ∧
    (0 < driver.tripLength → 0 < rider.tripLength →
      calc_weight .distance_proximity dist driver rider
          = .ok (min (driver.tripLength / rider.tripLength)
                     (rider.tripLength / driver.tripLength)) ∧
        0 < min (driver.tripLength / rider.tripLength)
            (rider.tripLength / driver.tripLength) ∧
        min (driver.tripLength / rider.tripLength)
            (rider.tripLength / driver.tripLength) ≤ 1) := by
  constructor
  · intro h
    rcases h with h | h
    · by_cases hr : rider.tripLength = 0
      · simp [calc_weight, hr]
      · simp [calc_weight, hr, h]
    · simp [calc_weight, h]
  · intro hd hr
    have hdne : driver.tripLength ≠ 0 := ne_of_gt hd
    have hrne : rider.tripLength ≠ 0 := ne_of_gt hr
    refine ⟨by simp [calc_weight, hdne, hrne],
      lt_min (div_pos hd hr) (div_pos hr hd), ?_⟩
    rcases le_total driver.tripLength rider.tripLength with h | h
    · exact le_trans (min_le_left _ _) ((div_le_one hr).mpr h)
    · exact le_trans (min_le_right _ _) ((div_le_one hd).mpr h)

/-- Claim C7: the `distance_savings` weight equals the spec's formula
`(driver.trip_length + rider.trip_length)` minus the three-leg route length
under the run's single distance metric, and the weighted objective is
interpreted as maximization (an optimal point dominates every feasible
point). -/
theorem distance_savings_matches_spec :
    (∀ (dist : Point → Point → Rat) (driver rider : Participant),
      calc_weight .distance_savings dist driver rider
        = .ok (spec_distance_savings dist driver rider)) ∧
    (∀ (dIds rIds : List Nat) (edges sel sel' : List WEdge),
      isOptimalW dIds rIds edges sel → feasibleW dIds rIds edges sel' →
        objValW sel' ≤ objValW sel) := by
  constructor
  · intro dist driver rider
    rfl
  · intro _ _ _ _ _ h h'
    exact h.2 _ h'

/-- Claim C8 counterexample: the module script's `distance_saved` is the
heuristic `len(matches) * mean(rider trip length) * 0.3` and not the summed
per-pair savings: on a 1×1 instance with both trips of length 10 and a
coincident route, the per-pair saving (hence its sum over the single matched
pair) is 20, while the script reports 3. -/
theorem aks_script_not_per_pair_sum :
    pair_saving sampleDist [⟨1, ⟨0, 0⟩, ⟨0, 0⟩, 10⟩] [⟨100, ⟨0, 0⟩, ⟨0, 0⟩, 10⟩] (1, 100)
        = .ok 20 ∧
      distance_saved_script 1 [10] = 3 ∧ ((3 : Rat) ≠ 20) := by
  refine ⟨?_, ?_, by norm_num⟩
  · show Except.ok (((10 : Rat) + 10) -
        with_match_length sampleDist ⟨1, ⟨0, 0⟩, ⟨0, 0⟩, 10⟩ ⟨100, ⟨0, 0⟩, ⟨0, 0⟩, 10⟩)
      = Except.ok (20 : Rat)
    norm_num [with_match_length, sampleDist]
  · norm_num [distance_saved_script]

/-- Claim C8 as amended: the class pipeline's AKS is the per-pair savings
averaged over the matched pairs (`k_total / matched_count`); the module
script's figure is `len(matches) * mean(rider trip length) * 0.3` — a
heuristic estimate, so the summed per-pair mode is not exposed. -/
theorem aks_modes_actual
    (dist : Point → Point → Rat) (drivers riders : List Participant)
    (edges sel : List (Nat × Nat)) (m : Metrics) (k : Rat)
    (hm : calculate_metrics dist drivers riders edges sel = .ok m)
    (hk : sum_savings dist drivers riders sel = .ok k)
    (hne : sel ≠ []) :
    m.aks = k / (sel.length : Rat) ∧
    ∀ (nm : Nat) (tls : List Rat), 0 < nm →
      distance_saved_script nm tls
        = (nm : Rat) * (tls.sum / (tls.length : Rat)) * (3 / 10) := by
  constructor
  · unfold calculate_metrics at hm
    split at hm
    · cases hm
    · split at hm
      · cases hm
      · rw [hk] at hm
        simp only [Except.ok.injEq] at hm
        subst hm
        simp [List.length_pos.mpr hne]
  · intro nm tls hnm
    simp [distance_saved_script, hnm]

/-- Claim C9 counterexample: with one match and two riders the module script
reports 50 — a percentage — which is neither of the two rate definitions the
claim allows (`|M|/num_riders = 1/2`, and `2|M|/(D+R) = 1/2` at D = R = 2);
no per-call choice of definition exists. -/
theorem matching_rate_script_percentage :
    matching_rate_script 1 2 = .ok 50 ∧
      ((50 : Rat) ≠ 1 / 2) ∧ ((50 : Rat) ≠ 2 * 1 / (2 + 2)) := by
  refine ⟨?_, by norm_num, by norm_num⟩
  norm_num [matching_rate_script]

/-- Claim C9 as amended: the class variant always computes
`matched * 2 / (D + R)` and the module script always computes
`len(matches) / num_riders * 100` (a percentage); each variant's definition
is fixed, not selected per call. -/
theorem matching_rate_formulas
    (dist : Point → Point → Rat) (drivers riders : List Participant)
    (edges sel : List (Nat × Nat)) (m : Metrics)
    (hm : calculate_metrics dist drivers riders edges sel = .ok m) :
    m.match_rate = (sel.length : Rat) * 2 /
        (((driverIds drivers).length : Rat) + ((riderIds riders).length : Rat)) ∧
    ∀ (nm nr : Nat), nr ≠ 0 →
      matching_rate_script nm nr = .ok ((nm : Rat) / (nr : Rat) * 100) := by
  constructor
  · unfold calculate_metrics at hm
    split at hm
    · cases hm
    · split at hm
      · cases hm
      · cases hs : sum_savings dist drivers riders sel with
        | error e =>
            rw [hs] at hm
            cases hm
        | ok k =>
            rw [hs] at hm
            simp only [Except.ok.injEq] at hm
            subst hm
            rfl
  · intro nm nr hnr
    simp [matching_rate_script, hnr]

/-- Claim C10: in the module-level script's model every edge cost is a sum of
absolute values (hence nonnegative), both constraint families are at-most-one
inequalities, and the objective is minimized: the all-zero assignment is
feasible with objective 0 and no feasible assignment does better. -/
theorem script_zero_assignment_optimal (riders drivers : List Participant) :
    feasibleScript riders.length drivers.length [] ∧
    scriptObj riders drivers [] = 0 ∧
    ∀ sel, feasibleScript riders.length drivers.length sel →
      scriptObj riders drivers [] ≤ scriptObj riders drivers sel := by
  refine ⟨⟨List.nil_sublist _, ?_, ?_⟩, rfl, ?_⟩
  · intro i _
    simp
  · intro j _
    simp
  · intro sel _
    have h0 : scriptObj riders drivers [] = 0 := rfl
    rw [h0]
    refine List.sum_nonneg ?_
    intro x hx
    obtain ⟨ij, _, rfl⟩ := List.mem_map.mp hx
    unfold calculate_distance
    positivity

/-- Witness for the amended C8: on a 1×1 instance with per-pair saving 20 the
class pipeline's AKS equals the averaged per-pair savings 20/1. -/
theorem aks_modes_actual_witness :
    (⟨1, 1, 20⟩ : Metrics).aks
      = (20 : Rat) / ((([(1, 100)] : List (Nat × Nat)).length : Rat)) :=
  (aks_modes_actual sampleDist [⟨1, ⟨0, 0⟩, ⟨0, 0⟩, 10⟩] [⟨100, ⟨0, 0⟩, ⟨0, 0⟩, 10⟩]
    [(1, 100)] [(1, 100)] ⟨1, 1, 20⟩ 20
    (by norm_num [calculate_metrics, sum_savings, pair_saving, with_match_length, sampleDist,
      driverIds, riderIds])
    (by norm_num [sum_savings, pair_saving, with_match_length, sampleDist])
    (by simp)).1

/-- Witness for the amended C9: on a 1×1 instance with the single pair
selected the class pipeline's matching rate equals `1 * 2 / (1 + 1)`. -/
theorem matching_rate_formulas_witness :
    (⟨1, 1, 20⟩ : Metrics).match_rate
      = (([(1, 100)] : List (Nat × Nat)).length : Rat) * 2 /
          (((driverIds [⟨1, ⟨0, 0⟩, ⟨0, 0⟩, 10⟩]).length : Rat) +
            ((riderIds [⟨100, ⟨0, 0⟩, ⟨0, 0⟩, 10⟩]).length : Rat)) :=
  (matching_rate_formulas sampleDist [⟨1, ⟨0, 0⟩, ⟨0, 0⟩, 10⟩] [⟨100, ⟨0, 0⟩, ⟨0, 0⟩, 10⟩]
    [(1, 100)] [(1, 100)] ⟨1, 1, 20⟩
    (by norm_num [calculate_metrics, sum_savings, pair_saving, with_match_length, sampleDist,
      driverIds, riderIds])).1

